import Mathlib

/-!
Shallow embedding of the descent-extraction and scoring engine of
`scripts/analyze-descents.js` (randonee-overlay).

Numbers are modelled as rationals.  The two transcendental helpers of the
source — `haversineKm` (great-circle distance) and `Math.atan · 180/π`
(gradient in degrees) — are passed as explicit function parameters `hop`
and `atanDeg`; every other line is translated directly from the source.
JavaScript `Math.round x` is `⌊x + 1/2⌋`, `Math.round (x*10)/10` is
one-decimal rounding, and `v || 0` on a nullable number is `Option.getD v 0`.
-/

/-- A track point: `{ lat, lon, ele }` with `ele` possibly null. -/
structure Point where
  lat : ℚ
  lon : ℚ
  ele : Option ℚ
deriving DecidableEq, Repr

/-- Default point used for out-of-range index reads (never reached on
valid indices). -/
def dPoint : Point := ⟨0, 0, none⟩

/-- `SMOOTH_WINDOW = 10` -/
def SMOOTH_WINDOW : ℕ := 10

/-- `MIN_DROP_M = 200` -/
def MIN_DROP_M : ℚ := 200

/-- `MIN_CLIMB_TO_RESET = 100` -/
def MIN_CLIMB_TO_RESET : ℚ := 100

/-- `STEEP_MIN_DEG = 25` -/
def STEEP_MIN_DEG : ℚ := 25

/-- `STEEP_MAX_DEG = 35` -/
def STEEP_MAX_DEG : ℚ := 35

/-- `CHUNK_DIST_M = 50` -/
def CHUNK_DIST_M : ℚ := 50

/-- `MAX_DRIVE_KM = 65` -/
def MAX_DRIVE_KM : ℚ := 65

/-- JavaScript `Math.round`: round half toward positive infinity. -/
def jround (x : ℚ) : ℚ := ((⌊x + 1/2⌋ : ℤ) : ℚ)

/-- JavaScript `Math.round(x * 10) / 10`: round to one decimal place. -/
def round1 (x : ℚ) : ℚ := jround (x * 10) / 10

/-- The index range `[max (0) (i-w), min (n-1) (i+w)]` scanned by the
inner loop of `smoothElevation`. -/
def windowIdxs (n w i : ℕ) : List ℕ :=
  List.range' (i - w) (min (n - 1) (i + w) + 1 - (i - w))

/-- The non-null elevations collected over the window of index `i`
(the values summed and counted by `smoothElevation`'s inner loop). -/
def windowVals (points : List Point) (w i : ℕ) : List ℚ :=
  (windowIdxs points.length w i).filterMap (fun j => (points.getD j dPoint).ele)

/-- `smoothElevation(points, window)`: per index, null when the point's own
elevation is null, otherwise the mean of the non-null elevations in the
window (the window always contains the point itself, so `count > 0`). -/
def smoothElevation (points : List Point) (w : ℕ) : List (Option ℚ) :=
  (List.range points.length).map (fun i =>
    match (points.getD i dPoint).ele with
    | none => none
    | some _ =>
      let vals := windowVals points w i
      if vals.length > 0 then some (vals.sum / (vals.length : ℚ)) else none)

/-- A descent segment `{ peakI, troughI, drop }`. -/
structure Segment where
  peakI : ℕ
  troughI : ℕ
  drop : ℚ
deriving DecidableEq, Repr

/-- The running state of `findDescentSegments`' single left-to-right scan. -/
structure FinderState where
  peakI : ℕ
  peakEle : ℚ
  troughI : ℕ
  troughEle : ℚ
  segs : List Segment
deriving DecidableEq, Repr

/-- One iteration of the `findDescentSegments` loop at index `i` reading
elevation `e` (null elevations leave the state unchanged). -/
def finderStep (st : FinderState) (i : ℕ) (e : Option ℚ) : FinderState :=
  match e with
  | none => st
  | some ele =>
    if ele > st.peakEle then
      { st with peakEle := ele, peakI := i, troughEle := ele, troughI := i }
    else if ele < st.troughEle then
      { st with troughEle := ele, troughI := i }
    else if ele > st.troughEle + MIN_CLIMB_TO_RESET then
      let segs' :=
        if st.peakEle - st.troughEle ≥ MIN_DROP_M then
          st.segs ++ [⟨st.peakI, st.troughI, st.peakEle - st.troughEle⟩]
        else st.segs
      ⟨i, ele, i, ele, segs'⟩
    else st

/-- The loop `for (i = 1; i < n; i++)` of `findDescentSegments`, walking
the remaining elevations with `i` the index of the head. -/
def finderLoop (st : FinderState) (i : ℕ) : List (Option ℚ) → FinderState
  | [] => st
  | e :: rest => finderLoop (finderStep st i e) (i + 1) rest

/-- The initial peak/trough elevation `smoothEle[0] || 0`: the first
entry's value when non-null, `0` when the first entry is null or the
series is empty. -/
def finderInit (s : List (Option ℚ)) : ℚ :=
  match s with
  | [] => 0
  | x :: _ => x.getD 0

/-- The post-loop step of `findDescentSegments`: emit the still-open
peak/trough pair when its drop reaches `MIN_DROP_M`. -/
def finderFinish (st : FinderState) : List Segment :=
  if st.peakEle - st.troughEle ≥ MIN_DROP_M then
    st.segs ++ [⟨st.peakI, st.troughI, st.peakEle - st.troughEle⟩]
  else st.segs

/-- `findDescentSegments(smoothEle)` translated from the source. -/
def findDescentSegments (s : List (Option ℚ)) : List Segment :=
  let e0 := finderInit s
  finderFinish (finderLoop ⟨0, e0, 0, e0, []⟩ 1 s.tail)

/-- Index and value of the first non-null entry of a series. -/
def firstNonNull : List (Option ℚ) → Option (ℕ × ℚ)
  | [] => none
  | none :: rest => (firstNonNull rest).map (fun p => (p.1 + 1, p.2))
  | some e :: _ => some (0, e)

/-- Modelled from the spec: the Segment Finder as the specification words
it, with the running peak and trough both initialized to the index and
elevation of the first non-null sample (used only to compare against the
source's `findDescentSegments`). -/
def findDescentSegmentsSpecInit (s : List (Option ℚ)) : List Segment :=
  match firstNonNull s with
  | none => []
  | some (k, e) => finderFinish (finderLoop ⟨k, e, k, e, []⟩ (k + 1) (s.drop (k + 1)))

/-- A chunk of roughly `CHUNK_DIST_M` horizontal metres inside a descent
segment: `{ startI, endI, dist, drop, grad }`. -/
structure Chunk where
  startI : ℕ
  endI : ℕ
  dist : ℚ
  drop : ℚ
  grad : ℚ
deriving DecidableEq, Repr

/-- Default chunk for out-of-range reads. -/
def dChunk : Chunk := ⟨0, 0, 0, 0, 0⟩

/-- The running state of the chunk-building loop of
`findLongestSteepSegment`. -/
structure ChunkState where
  startI : ℕ
  dist : ℚ
  chunks : List Chunk
deriving DecidableEq, Repr

/-- One iteration of the chunk-building loop at index `i`: hops longer
than 2000 m are skipped; once the accumulated distance reaches
`CHUNK_DIST_M` a chunk is emitted (when both endpoint elevations are
non-null) and the accumulator restarts at `i`. -/
def chunkStep (hop : Point → Point → ℚ) (atanDeg : ℚ → ℚ)
    (points : List Point) (smoothEle : List (Option ℚ))
    (st : ChunkState) (i : ℕ) : ChunkState :=
  let segDist := hop (points.getD (i - 1) dPoint) (points.getD i dPoint) * 1000
  if segDist > 2000 then st
  else
    let dist' := st.dist + segDist
    if dist' ≥ CHUNK_DIST_M then
      let chunks' :=
        match smoothEle.getD st.startI none, smoothEle.getD i none with
        | some se, some ee =>
          if dist' > 0 then
            st.chunks ++ [⟨st.startI, i, dist', se - ee, atanDeg (max 0 (se - ee) / dist')⟩]
          else st.chunks
        | _, _ => st.chunks
      ⟨i, 0, chunks'⟩
    else { st with dist := dist' }

/-- The chunk list built by `findLongestSteepSegment` over
`[peakI+1, troughI]`. -/
def buildChunks (hop : Point → Point → ℚ) (atanDeg : ℚ → ℚ)
    (points : List Point) (smoothEle : List (Option ℚ))
    (peakI troughI : ℕ) : List Chunk :=
  ((List.range' (peakI + 1) (troughI + 1 - (peakI + 1))).foldl
    (chunkStep hop atanDeg points smoothEle) ⟨peakI, 0, []⟩).chunks

/-- The running state of the longest-steep-run scan:
`(bestStart, bestLen, curStart, curLen)`. -/
structure RunState where
  bestStart : ℕ
  bestLen : ℕ
  curStart : ℕ
  curLen : ℕ
deriving DecidableEq, Repr

/-- One iteration of the longest-run scan at chunk position `c` with
gradient `g`: in-band chunks extend the current run (recording a new best
only when strictly longer), out-of-band chunks reset it. -/
def runStep (st : RunState) (c : ℕ) (g : ℚ) : RunState :=
  if STEEP_MIN_DEG ≤ g ∧ g ≤ STEEP_MAX_DEG then
    let curStart' := if st.curLen = 0 then c else st.curStart
    let curLen' := st.curLen + 1
    if curLen' > st.bestLen then ⟨curStart', curLen', curStart', curLen'⟩
    else ⟨st.bestStart, st.bestLen, curStart', curLen'⟩
  else { st with curLen := 0 }

/-- The longest-run scan over the chunk gradients, `c` the position of
the head. -/
def runLoop (st : RunState) (c : ℕ) : List ℚ → RunState
  | [] => st
  | g :: rest => runLoop (runStep st c g) (c + 1) rest

/-- `(bestStart, bestLen)` after scanning all chunk gradients. -/
def longestRun (grads : List ℚ) : ℕ × ℕ :=
  let st := runLoop ⟨0, 0, 0, 0⟩ 0 grads
  (st.bestStart, st.bestLen)

/-- The steep sub-segment record returned by `findLongestSteepSegment`. -/
structure SteepSeg where
  verticalDrop : ℚ
  horizDistM : ℚ
  avgGradientDeg : ℚ
  startEle : ℚ
  endEle : ℚ
deriving DecidableEq, Repr

/-- The selection-and-aggregation half of `findLongestSteepSegment`:
pick the best run found by `longestRun`, return null when no chunk was in
the steep band, otherwise aggregate the selected slice. -/
def selectSteep (atanDeg : ℚ → ℚ) (smoothEle : List (Option ℚ))
    (chunks : List Chunk) : Option SteepSeg :=
  let r := longestRun (chunks.map Chunk.grad)
  if r.2 = 0 then none
  else
    let sc := (chunks.drop r.1).take r.2
    let totalDist := (sc.map Chunk.dist).sum
    let totalDrop := (sc.map Chunk.drop).sum
    some ⟨jround totalDrop, jround totalDist, round1 (atanDeg (totalDrop / totalDist)),
      jround ((smoothEle.getD (sc.getD 0 dChunk).startI none).getD 0),
      jround ((smoothEle.getD (sc.getLastD dChunk).endI none).getD 0)⟩

/-- `findLongestSteepSegment(points, smoothEle, peakI, troughI)`. -/
def findLongestSteepSegment (hop : Point → Point → ℚ) (atanDeg : ℚ → ℚ)
    (points : List Point) (smoothEle : List (Option ℚ))
    (peakI troughI : ℕ) : Option SteepSeg :=
  selectSteep atanDeg smoothEle (buildChunks hop atanDeg points smoothEle peakI troughI)

/-- The glitch-filtered horizontal distance of `analyzeDescentSegment`:
point-to-point hops over `[peakI+1, troughI]`, hops above 2000 m
contributing nothing. -/
def segHopSum (hop : Point → Point → ℚ) (points : List Point)
    (peakI troughI : ℕ) : ℚ :=
  ((List.range' (peakI + 1) (troughI + 1 - (peakI + 1))).map (fun i =>
    let d := hop (points.getD (i - 1) dPoint) (points.getD i dPoint) * 1000
    if d > 2000 then 0 else d)).sum

/-- The descent analysis record. -/
structure Analysis where
  verticalDrop : ℚ
  horizDistM : ℚ
  avgGradientDeg : ℚ
  peakEle : ℚ
  troughEle : ℚ
  steepSegment : Option SteepSeg
deriving DecidableEq, Repr

/-- `analyzeDescentSegment(points, smoothEle, peakI, troughI)`: null when
the glitch-filtered horizontal distance is under 10 m, otherwise the
rounded analysis record. -/
def analyzeDescentSegment (hop : Point → Point → ℚ) (atanDeg : ℚ → ℚ)
    (points : List Point) (smoothEle : List (Option ℚ))
    (peakI troughI : ℕ) : Option Analysis :=
  let horizDistM := segHopSum hop points peakI troughI
  if horizDistM < 10 then none
  else
    let verticalDrop :=
      (smoothEle.getD peakI none).getD 0 - (smoothEle.getD troughI none).getD 0
    some
      { verticalDrop := jround verticalDrop
        horizDistM := jround horizDistM
        avgGradientDeg := round1 (atanDeg (verticalDrop / horizDistM))
        peakEle := jround ((smoothEle.getD peakI none).getD 0)
        troughEle := jround ((smoothEle.getD troughI none).getD 0)
        steepSegment := findLongestSteepSegment hop atanDeg points smoothEle peakI troughI }

/-- `descentScore(analysis)`: 0 for a null analysis, otherwise the sum of
the capped drop term, the gradient-fit term and the steep bonus, rounded
to one decimal. -/
def descentScore (analysis : Option Analysis) : ℚ :=
  match analysis with
  | none => 0
  | some a =>
    let dropTerm := min a.verticalDrop 1200 / 12
    let gradDiff := |a.avgGradientDeg - 30|
    let gradTerm := max 0 (50 - gradDiff * 5)
    let steepTerm :=
      match a.steepSegment with
      | some ss => min ss.verticalDrop 500 / 10
      | none => 0
    round1 (dropTerm + gradTerm + steepTerm)

/-- The best-of-segments fold common to both aggregator paths: analyze
each segment, keep the analysis with the strictly highest score
(initial best score 0, so a route whose analyses all score 0 keeps
none). -/
def bestPick (hop : Point → Point → ℚ) (atanDeg : ℚ → ℚ)
    (points : List Point) (ele : List (Option ℚ))
    (segs : List Segment) : Option Analysis × ℚ :=
  segs.foldl (fun best seg =>
    match analyzeDescentSegment hop atanDeg points ele seg.peakI seg.troughI with
    | none => best
    | some a =>
      let sc := descentScore (some a)
      if sc > best.2 then (some a, sc) else best)
    (none, 0)

/-- The elevation series a catalog tour feeds to segmentation: the raw
per-point elevations, with no smoothing pass. -/
def tourEleArr (points : List Point) : List (Option ℚ) :=
  points.map Point.ele

/-- The catalog input adapter: `[lon, lat, ele?] -> { lat, lon, ele }`,
with `ele = c[2] || 0`. -/
def tourPoints (coords : List (ℚ × ℚ × Option ℚ)) : List Point :=
  coords.map (fun c => ⟨c.2.1, c.1, some (c.2.2.getD 0)⟩)

/-- Running segmentation, evaluation and scoring directly on a point
sequence with its raw elevations (the forward pipeline of
`analyzeToppturTours`). -/
def directAnalyze (hop : Point → Point → ℚ) (atanDeg : ℚ → ℚ)
    (points : List Point) : Option Analysis × ℚ :=
  bestPick hop atanDeg points (tourEleArr points) (findDescentSegments (tourEleArr points))

/-- The per-tour descent search of `analyzeToppturTours`: forward
segmentation, and when it yields zero segments, one retry on the reversed
point sequence. -/
def tourBest (hop : Point → Point → ℚ) (atanDeg : ℚ → ℚ)
    (points : List Point) : Option Analysis × ℚ :=
  let eleArr := tourEleArr points
  let segments := findDescentSegments eleArr
  if segments = [] then
    let revPoints := points.reverse
    let revEle := tourEleArr revPoints
    bestPick hop atanDeg revPoints revEle (findDescentSegments revEle)
  else
    bestPick hop atanDeg points eleArr segments

/-- The reference point for the driving-distance filter. -/
def tromso : Point := ⟨69.6492, 18.9553, none⟩

/-- The whole per-tour path of `analyzeToppturTours`: size guard
(`< 5` coordinates), bounding-box guard on the first coordinate,
driving-distance guard, then the descent search; a tour whose search
keeps no analysis produces no result. -/
def tourResult (hop : Point → Point → ℚ) (atanDeg : ℚ → ℚ)
    (coords : List (ℚ × ℚ × Option ℚ)) : Option (Analysis × ℚ) :=
  if coords.length < 5 then none
  else
    let c0 := coords.getD 0 (0, 0, none)
    let lon := c0.1
    let lat := c0.2.1
    if lat < 69.3 ∨ lat > 70.0 ∨ lon < 18.0 ∨ lon > 20.5 then none
    else
      let points := tourPoints coords
      if hop tromso (points.getD 0 dPoint) > MAX_DRIVE_KM then none
      else
        match tourBest hop atanDeg points with
        | (none, _) => none
        | (some a, sc) => some (a, sc)

/-- The per-track path of `analyzeGpxTracks`: size guard (`< 50` points),
smoothing, segmentation, best-of-segments; a track with zero segments or
no kept analysis produces no result. -/
def gpxResult (hop : Point → Point → ℚ) (atanDeg : ℚ → ℚ)
    (points : List Point) : Option (Analysis × ℚ) :=
  if points.length < 50 then none
  else
    let smoothEle := smoothElevation points SMOOTH_WINDOW
    let segments := findDescentSegments smoothEle
    if segments = [] then none
    else
      match bestPick hop atanDeg points smoothEle segments with
      | (none, _) => none
      | (some a, sc) => some (a, sc)

/-- Stand-in for `haversineKm` on the northbound tour `cexCoords`: the
meridian distance of 111 km per degree of latitude.  Every call the
pipeline makes on that tour is between points at equal longitude whose
latitude increases by 0.001° (and the reference point 0.0008° south), so
the real haversine value there is 0.1112 km per step — this stand-in
gives 0.111 km and every comparison (`> 2000` m glitch, `≥ 50` m chunk,
`< 10` m minimum, `> 65` km drive) lands on the same side. -/
def cexHop : Point → Point → ℚ := fun p q => (q.lat - p.lat) * 111

/-- Stand-in for `Math.atan(x) * 180/π` on the tour `cexCoords`: every
chunk and the whole descent there have drop/distance `200/111 ≈ 1.80`,
whose arctangent is ≈ 60.9° — outside the steep band `[25, 35]`, exactly
as this stand-in's value 61 is. -/
def cexAtan : ℚ → ℚ := fun _ => 61

/-- A concrete 5-coordinate catalog tour starting 0.0008° north of the
Tromsø reference point and heading due north in 0.001° latitude steps
(≈ 111 m per hop), descending 200 m per hop. -/
def cexCoords : List (ℚ × ℚ × Option ℚ) :=
  [(18.9553, 69.65, some 1000), (18.9553, 69.651, some 800),
   (18.9553, 69.652, some 600), (18.9553, 69.653, some 400),
   (18.9553, 69.654, some 200)]

/-- A three-point monotonically ascending track (forward segmentation
finds nothing on it). -/
def ascendingPts : List Point := [⟨0, 0, some 0⟩, ⟨0, 0, some 300⟩, ⟨0, 0, some 600⟩]

/-- A concrete coordinate list exercising the catalog input adapter:
missing, zero and positive third coordinates. -/
def c10Coords : List (ℚ × ℚ × Option ℚ) :=
  [(18.96, 69.65, none), (19, 69.7, some 0), (19, 69.7, some 250)]

/-- A concrete chunk list whose single out-of-band chunk carries the
largest drop, while the longest in-band run is the two trailing chunks. -/
def c6Chunks : List Chunk :=
  [⟨0, 1, 50, 25, 30⟩, ⟨1, 2, 50, 60, 40⟩, ⟨2, 3, 50, 28, 30⟩, ⟨3, 4, 50, 29, 30⟩]

/-- A concrete descent analysis. -/
def aAn : Analysis := ⟨100, 1000, 20, 500, 400, none⟩

/-- The same analysis with a larger vertical drop. -/
def bAn : Analysis := ⟨200, 1000, 20, 500, 300, none⟩

/-- `goodRun grads s L`: the `L` chunk gradients starting at position `s`
all exist and all lie in the steep band. -/
def goodRun (grads : List ℚ) (s L : ℕ) : Prop :=
  ∀ k < L, s + k < grads.length ∧
    STEEP_MIN_DEG ≤ grads.getD (s + k) 0 ∧ grads.getD (s + k) 0 ≤ STEEP_MAX_DEG

instance (grads : List ℚ) (s L : ℕ) : Decidable (goodRun grads s L) := by
  unfold goodRun; infer_instance

/-- Structural invariant of the segment-finder scan at position `i`:
index bookkeeping, and the emitted segments satisfy the minimum drop,
span ordering and pairwise disjointness. -/
def InvA (i : ℕ) (st : FinderState) : Prop :=
  st.peakI ≤ st.troughI ∧ st.troughI < i ∧
  (∀ g ∈ st.segs, MIN_DROP_M ≤ g.drop ∧ g.peakI ≤ g.troughI ∧ g.troughI < st.peakI) ∧
  st.segs.Pairwise (fun a b => a.troughI < b.peakI)

/-- Consistency invariant of the segment-finder scan against the series
`s`: the running peak/trough elevations and every emitted drop are read
off the series at their recorded indices. -/
def InvB (s : List (Option ℚ)) (st : FinderState) : Prop :=
  s.getD st.peakI none = some st.peakEle ∧
  s.getD st.troughI none = some st.troughEle ∧
  ∀ g ∈ st.segs, ∃ ep et, s.getD g.peakI none = some ep ∧
    s.getD g.troughI none = some et ∧ g.drop = ep - et

/-- Invariant of the longest-steep-run scan after the first `m` chunk
gradients: the current run is the maximal in-band suffix of the scanned
prefix, and `(bestStart, bestLen)` is the earliest in-band interval of
maximal length within the scanned prefix. -/
def RunInv (grads : List ℚ) (m : ℕ) (st : RunState) : Prop :=
  st.curLen ≤ m ∧
  (0 < st.curLen → st.curStart = m - st.curLen) ∧
  goodRun grads (m - st.curLen) st.curLen ∧
  (∀ L ≤ m, goodRun grads (m - L) L → L ≤ st.curLen) ∧
  st.curLen ≤ st.bestLen ∧
  goodRun grads st.bestStart st.bestLen ∧
  st.bestStart + st.bestLen ≤ m ∧
  (∀ s L, s + L ≤ m → goodRun grads s L → L ≤ st.bestLen) ∧
  (∀ u, u < st.bestStart → ¬ goodRun grads u st.bestLen)

/-- C8: the Descent Evaluator returns null if and only if the segment's
glitch-filtered horizontal distance (sum of point-to-point hops over the
segment span, excluding hops greater than 2000 m) is below 10 m;
otherwise it returns a Descent Analysis. -/
theorem C8_evaluator_none_iff_short (hop : Point → Point → ℚ) (atanDeg : ℚ → ℚ)
    (points : List Point) (smoothEle : List (Option ℚ)) (peakI troughI : ℕ) :
    analyzeDescentSegment hop atanDeg points smoothEle peakI troughI = none ↔
      segHopSum hop points peakI troughI < 10 := by
  by_cases h : segHopSum hop points peakI troughI < 10 <;>
    simp [analyzeDescentSegment, h]

/-- C3 counterexample: on the series `[null, -500, -300]` the source's
Segment Finder (which initializes peak and trough to `smoothEle[0] || 0`,
i.e. elevation 0 here) emits a 500 m segment, while the finder initialized
at the first non-null sample, as the claim states, finds nothing. -/
theorem C3_counterexample :
    findDescentSegments [none, some (-500), some (-300)] ≠
      findDescentSegmentsSpecInit [none, some (-500), some (-300)] := by
  norm_num [findDescentSegments, findDescentSegmentsSpecInit, firstNonNull,
    finderInit, finderLoop, finderStep, finderFinish, MIN_DROP_M, MIN_CLIMB_TO_RESET]

/-- C3 amended: the Segment Finder initializes both running pairs to
index 0 with elevation `smoothEle[0] || 0` — the first entry's value when
non-null and 0 otherwise, so a null first sample behaves exactly like
elevation 0 — and null elevations neither update the peak/trough state
nor break a run. -/
theorem C3_init_and_null_skip :
    (∀ (st : FinderState) (i : ℕ), finderStep st i none = st) ∧
    (∀ (x : Option ℚ) (xs : List (Option ℚ)),
      findDescentSegments (x :: xs) =
        finderFinish (finderLoop ⟨0, x.getD 0, 0, x.getD 0, []⟩ 1 xs)) ∧
    (∀ xs : List (Option ℚ),
      findDescentSegments (none :: xs) = findDescentSegments (some 0 :: xs)) :=
  ⟨fun _ _ => rfl, fun _ _ => rfl, fun _ => rfl⟩

/-- Any rational is less than its JavaScript rounding plus a half. -/
theorem jround_gt (x : ℚ) : x - 1/2 < jround x := by
  unfold jround
  have h := Int.sub_one_lt_floor (x + 1/2)
  push_cast at h ⊢
  linarith

/-- One-decimal rounding of a rational at least 1 is positive. -/
theorem round1_pos {x : ℚ} (h : 1 ≤ x) : 0 < round1 x := by
  unfold round1
  have h2 := jround_gt (x * 10)
  unfold jround at h2 ⊢
  have : (0 : ℚ) < ((⌊x * 10 + 1/2⌋ : ℤ) : ℚ) := by linarith
  linarith

/-- C2 counterexample: a concrete catalog tour with 5 coordinates —
fewer than 50 — passes the catalog size guard (which is `< 5`, not
`< 50`), is segmented, and produces a Scored Result.  The hop and
gradient functions are instantiated with `cexHop` and `cexAtan`, which
agree with the real haversine and arctangent at every comparison the
pipeline makes on this tour. -/
theorem C2_counterexample :
    cexCoords.length < 50 ∧ tourResult cexHop cexAtan cexCoords ≠ none := by
  refine ⟨by decide, ?_⟩
  have hele : tourEleArr (tourPoints cexCoords) =
      [some 1000, some 800, some 600, some 400, some 200] := rfl
  have hpts : tourPoints cexCoords =
      [⟨69.65, 18.9553, some 1000⟩, ⟨69.651, 18.9553, some 800⟩,
       ⟨69.652, 18.9553, some 600⟩, ⟨69.653, 18.9553, some 400⟩,
       ⟨69.654, 18.9553, some 200⟩] := rfl
  have hsegs : findDescentSegments (tourEleArr (tourPoints cexCoords)) =
      [⟨0, 4, 800⟩] := by
    rw [hele]
    norm_num [findDescentSegments, finderInit, finderLoop, finderStep,
      finderFinish, MIN_DROP_M, MIN_CLIMB_TO_RESET]
  have hdist : segHopSum cexHop (tourPoints cexCoords) 0 4 = 444 := by
    rw [hpts]
    norm_num [segHopSum, cexHop, List.range', List.getD_cons_zero,
      List.getD_cons_succ]
  have hsteep : findLongestSteepSegment cexHop cexAtan (tourPoints cexCoords)
      (tourEleArr (tourPoints cexCoords)) 0 4 = none := by
    have hchunks : buildChunks cexHop cexAtan (tourPoints cexCoords)
        (tourEleArr (tourPoints cexCoords)) 0 4 =
        [⟨0, 1, 111, 200, 61⟩, ⟨1, 2, 111, 200, 61⟩,
         ⟨2, 3, 111, 200, 61⟩, ⟨3, 4, 111, 200, 61⟩] := by
      rw [hele, hpts]
      norm_num [buildChunks, chunkStep, cexHop, cexAtan, CHUNK_DIST_M,
        List.range', List.getD_cons_zero, List.getD_cons_succ]
    rw [findLongestSteepSegment, hchunks]
    norm_num [selectSteep, longestRun, runLoop, runStep,
      STEEP_MIN_DEG, STEEP_MAX_DEG]
  have hana : analyzeDescentSegment cexHop cexAtan (tourPoints cexCoords)
      (tourEleArr (tourPoints cexCoords)) 0 4 =
      some ⟨jround 800, jround 444, round1 61, jround 1000, jround 200, none⟩ := by
    rw [analyzeDescentSegment, hdist, hsteep, hele]
    norm_num [List.getD_cons_zero, List.getD_cons_succ, cexAtan]
  have hscore : 0 < descentScore
      (some ⟨jround 800, jround 444, round1 61, jround 1000, jround 200, none⟩) := by
    apply round1_pos
    have h1 : (12 : ℚ) ≤ min (jround 800) 1200 := by
      have := jround_gt (800 : ℚ)
      have h12 : (12 : ℚ) ≤ jround 800 := by linarith
      exact le_min h12 (by norm_num)
    have h2 : (0 : ℚ) ≤ max 0 (50 - |round1 61 - 30| * 5) := le_max_left _ _
    linarith
  have hbest : tourBest cexHop cexAtan (tourPoints cexCoords) =
      (some ⟨jround 800, jround 444, round1 61, jround 1000, jround 200, none⟩,
        descentScore (some ⟨jround 800, jround 444, round1 61,
          jround 1000, jround 200, none⟩)) := by
    rw [tourBest, hsegs]
    simp only [List.cons_ne_self, if_neg (by simp : ¬ ([⟨0, 4, 800⟩] : List Segment) = [])]
    simp only [bestPick, List.foldl, hana]
    rw [if_pos hscore]
    simp
  have hguard1 : ¬ (cexCoords.length < 5) := by decide
  have hguard2 : ¬ ((cexCoords.getD 0 (0, 0, none)).2.1 < 69.3 ∨
      (cexCoords.getD 0 (0, 0, none)).2.1 > 70.0 ∨
      (cexCoords.getD 0 (0, 0, none)).1 < 18.0 ∨
      (cexCoords.getD 0 (0, 0, none)).1 > 20.5) := by
    norm_num [cexCoords]
  have hguard3 : ¬ (cexHop tromso ((tourPoints cexCoords).getD 0 dPoint) > MAX_DRIVE_KM) := by
    rw [hpts]
    norm_num [cexHop, MAX_DRIVE_KM, tromso, List.getD_cons_zero]
  simp only [tourResult, if_neg hguard1, if_neg hguard2, if_neg hguard3, hbest]
  simp

/-- C2 amended: a local GPX track with fewer than 50 points is skipped
before segmentation and produces no result, while a catalog tour is
skipped only when it has fewer than 5 coordinates. -/
theorem C2_size_guards :
    (∀ (hop : Point → Point → ℚ) (atanDeg : ℚ → ℚ) (points : List Point),
      points.length < 50 → gpxResult hop atanDeg points = none) ∧
    (∀ (hop : Point → Point → ℚ) (atanDeg : ℚ → ℚ) (coords : List (ℚ × ℚ × Option ℚ)),
      coords.length < 5 → tourResult hop atanDeg coords = none) := by
  constructor
  · intro hop atanDeg points h
    unfold gpxResult
    rw [if_pos h]
  · intro hop atanDeg coords h
    unfold tourResult
    rw [if_pos h]

/-- C2 witness: both guards fire on an empty route. -/
theorem C2_size_guards_witness :
    gpxResult (fun _ _ => 0) (fun x => x) [] = none ∧
    tourResult (fun _ _ => 0) (fun x => x) [] = none :=
  ⟨C2_size_guards.1 _ _ [] (by decide), C2_size_guards.2 _ _ [] (by decide)⟩

/-- C9: when forward segmentation of a catalog route finds zero segments,
the fallback result equals running the segmentation-evaluation-scoring
pipeline directly on the reversed point sequence (with its reversed
elevation array); when forward segmentation finds a segment, the fallback
never runs and the forward pipeline's result is kept. -/
theorem C9_reverse_fallback (hop : Point → Point → ℚ) (atanDeg : ℚ → ℚ)
    (points : List Point) :
    (findDescentSegments (tourEleArr points) = [] →
      tourBest hop atanDeg points = directAnalyze hop atanDeg points.reverse) ∧
    (findDescentSegments (tourEleArr points) ≠ [] →
      tourBest hop atanDeg points = directAnalyze hop atanDeg points) := by
  constructor
  · intro h
    unfold tourBest directAnalyze
    rw [if_pos h]
  · intro h
    unfold tourBest directAnalyze
    rw [if_neg h]

/-- C9 witness: on a purely ascending three-point route the fallback
result is literally the direct analysis of the reversed sequence. -/
theorem C9_reverse_fallback_witness :
    tourBest (fun _ _ => 0) (fun x => x) ascendingPts =
      directAnalyze (fun _ _ => 0) (fun x => x) ascendingPts.reverse :=
  (C9_reverse_fallback _ _ _).1 (by
    norm_num [ascendingPts, tourEleArr, findDescentSegments, finderInit,
      finderLoop, finderStep, finderFinish, MIN_DROP_M, MIN_CLIMB_TO_RESET])

/-- C10: the catalog input adapter maps `[lon, lat, ele?]` to a sample
whose elevation is `ele? || 0` — always non-null, with missing, null or
zero third coordinates all becoming 0 — and the elevation series handed
to segmentation is exactly this raw per-point array, with no smoothing
pass applied. -/
theorem C10_adapter_raw_elevations (coords : List (ℚ × ℚ × Option ℚ)) :
    tourEleArr (tourPoints coords) = coords.map (fun c => some (c.2.2.getD 0)) ∧
    ∀ x ∈ tourEleArr (tourPoints coords), x ≠ none := by
  constructor
  · simp [tourEleArr, tourPoints, List.map_map]
  · intro x hx
    simp only [tourEleArr, tourPoints, List.map_map, List.mem_map] at hx
    obtain ⟨c, -, rfl⟩ := hx
    simp

/-- C10 witness: on a concrete coordinate list with missing, zero and
positive elevations, the series fed to segmentation is the raw adapted
array and its entries are non-null. -/
theorem C10_witness :
    tourEleArr (tourPoints c10Coords) = c10Coords.map (fun c => some (c.2.2.getD 0)) ∧
    (some (250 : ℚ) : Option ℚ) ≠ none :=
  ⟨(C10_adapter_raw_elevations c10Coords).1,
   (C10_adapter_raw_elevations c10Coords).2 (some 250) (by decide)⟩

/-- One-decimal rounding is monotone. -/
theorem round1_mono {x y : ℚ} (h : x ≤ y) : round1 x ≤ round1 y := by
  unfold round1 jround
  have hf : ⌊x * 10 + 1/2⌋ ≤ ⌊y * 10 + 1/2⌋ := Int.floor_le_floor (by linarith)
  have : ((⌊x * 10 + 1/2⌋ : ℤ) : ℚ) ≤ ((⌊y * 10 + 1/2⌋ : ℤ) : ℚ) := by exact_mod_cast hf
  linarith

/-- C7: the Scorer is monotonically non-decreasing in `verticalDrop` when
the gradient and the steep sub-run are held fixed, and for fixed drop and
steep sub-run the score at gradient 30° is at least the score at any
other gradient. -/
theorem C7_score_monotone_and_peak_at_30 :
    (∀ a b : Analysis, a.verticalDrop ≤ b.verticalDrop →
      a.avgGradientDeg = b.avgGradientDeg → a.steepSegment = b.steepSegment →
      descentScore (some a) ≤ descentScore (some b)) ∧
    (∀ (a : Analysis) (g : ℚ),
      descentScore (some { a with avgGradientDeg := g }) ≤
        descentScore (some { a with avgGradientDeg := 30 })) := by
  constructor
  · intro a b hd hg hs
    simp only [descentScore, hg, hs]
    apply round1_mono
    have h1 : min a.verticalDrop 1200 ≤ min b.verticalDrop 1200 :=
      min_le_min hd (le_refl (1200 : ℚ))
    linarith
  · intro a g
    simp only [descentScore]
    apply round1_mono
    have h30 : max (0 : ℚ) (50 - |(30 : ℚ) - 30| * 5) = 50 := by norm_num
    have hg : max (0 : ℚ) (50 - |g - 30| * 5) ≤ 50 :=
      max_le (by norm_num) (by nlinarith [abs_nonneg (g - 30)])
    simp only [h30]
    linarith

/-- C7 witness: a larger drop scores no less, and gradient 30° scores no
less than gradient 10°, on concrete analyses. -/
theorem C7_witness :
    descentScore (some aAn) ≤ descentScore (some bAn) ∧
    descentScore (some { aAn with avgGradientDeg := 10 }) ≤
      descentScore (some { aAn with avgGradientDeg := 30 }) :=
  ⟨C7_score_monotone_and_peak_at_30.1 aAn bAn (by decide) (by decide) (by decide),
   C7_score_monotone_and_peak_at_30.2 aAn 10⟩

/-- Reading the smoothed series at a valid index yields the per-index
computation of `smoothElevation`. -/
theorem smoothElevation_getD (points : List Point) (w i : ℕ)
    (h : i < points.length) :
    (smoothElevation points w).getD i none =
      match (points.getD i dPoint).ele with
      | none => none
      | some _ =>
        if (windowVals points w i).length > 0 then
          some ((windowVals points w i).sum / ((windowVals points w i).length : ℚ))
        else none := by
  unfold smoothElevation
  rw [List.getD_eq_getElem?_getD, List.getElem?_map]
  simp [List.getElem?_range, h]

/-- Every valid index lies inside its own averaging window. -/
theorem mem_windowIdxs_self (n w i : ℕ) (h : i < n) : i ∈ windowIdxs n w i := by
  unfold windowIdxs
  rw [List.mem_range'_1]
  omega

/-- A non-null own elevation guarantees a non-empty window collection. -/
theorem windowVals_length_pos (points : List Point) (w i : ℕ) (e : ℚ)
    (h : i < points.length) (he : (points.getD i dPoint).ele = some e) :
    (windowVals points w i).length > 0 := by
  have hmem : e ∈ windowVals points w i :=
    List.mem_filterMap.2 ⟨i, mem_windowIdxs_self points.length w i h, he⟩
  exact List.length_pos.2 (List.ne_nil_of_mem hmem)

/-- C1 counterexample: at index 0 of the two-point track
`[null, 100]` the window `[0, 1]` contains a non-null elevation, yet the
Smoother outputs null there — because the source returns null whenever
the point's own elevation is null, regardless of its neighbors. -/
theorem C1_counterexample :
    (smoothElevation [⟨0, 0, none⟩, ⟨0, 0, some 100⟩] 10).getD 0 (some 0) = none ∧
    ∃ j ∈ windowIdxs 2 10 0,
      (([⟨0, 0, none⟩, ⟨0, 0, some 100⟩] : List Point).getD j dPoint).ele ≠ none := by
  exact ⟨by decide, 1, by decide, by decide⟩

/-- C1 amended: the Smoother's output at `i` is null exactly when the
sample's own elevation at `i` is null; when the own elevation is
non-null, the output is the arithmetic mean of all non-null elevations
among samples `[max(0, i-W), min(n-1, i+W)]`. -/
theorem C1_smoother_mean (points : List Point) (w i : ℕ) (h : i < points.length) :
    ((smoothElevation points w).getD i none = none ↔
      (points.getD i dPoint).ele = none) ∧
    ∀ e, (points.getD i dPoint).ele = some e →
      (smoothElevation points w).getD i none =
        some ((windowVals points w i).sum / ((windowVals points w i).length : ℚ)) := by
  have hg := smoothElevation_getD points w i h
  cases he : (points.getD i dPoint).ele with
  | none =>
    rw [he] at hg
    exact ⟨⟨fun _ => rfl, fun _ => hg⟩, fun e he' => Option.noConfusion he'⟩
  | some e =>
    rw [he] at hg
    have hg' : (smoothElevation points w).getD i none =
        some ((windowVals points w i).sum / ((windowVals points w i).length : ℚ)) := by
      rw [hg]
      exact if_pos (windowVals_length_pos points w i e h he)
    refine ⟨⟨fun hn => ?_, fun hn => Option.noConfusion hn⟩, fun e' _ => hg'⟩
    rw [hg'] at hn
    exact Option.noConfusion hn

/-- C1 witness: on a one-point track with elevation 5 the Smoother's
output at index 0 is the mean over its window. -/
theorem C1_smoother_mean_witness :
    (smoothElevation [⟨0, 0, some 5⟩] 10).getD 0 none =
      some ((windowVals [⟨0, 0, some 5⟩] 10 0).sum /
        ((windowVals [⟨0, 0, some 5⟩] 10 0).length : ℚ)) :=
  (C1_smoother_mean [⟨0, 0, some 5⟩] 10 0 (by decide)).2 5 (by decide)

/-- On a strictly descending run of elevations, the finder scan only
extends the trough, ending at the last element. -/
theorem finderLoop_desc (es : List ℚ) :
    ∀ (st : FinderState) (i : ℕ) (e : ℚ), e < st.troughEle → st.troughEle ≤ st.peakEle →
    List.Chain (· > ·) e es →
    finderLoop st i ((e :: es).map some) =
      { st with troughI := i + es.length, troughEle := es.getLastD e } := by
  induction es with
  | nil =>
    intro st i e h1 h2 _
    have hstep : finderStep st i (some e) = { st with troughEle := e, troughI := i } := by
      simp only [finderStep]
      rw [if_neg (by linarith), if_pos h1]
    simp [finderLoop, hstep]
  | cons e' es' ih =>
    intro st i e h1 h2 hc
    cases hc with
    | cons he' hc' =>
    have hstep : finderStep st i (some e) = { st with troughEle := e, troughI := i } := by
      simp only [finderStep]
      rw [if_neg (by linarith), if_pos h1]
    rw [List.map_cons, finderLoop, hstep,
      ih { st with troughEle := e, troughI := i } (i + 1) e' he' (by simp; linarith) hc']
    simp only [FinderState.mk.injEq, List.length_cons, List.getLastD_cons,
      eq_self_iff_true, true_and, and_true]
    omega

/-- On a strictly ascending run of elevations, the finder scan only moves
the peak (resetting the trough with it), ending at the last element. -/
theorem finderLoop_asc (es : List ℚ) :
    ∀ (st : FinderState) (i : ℕ) (e : ℚ), st.peakEle < e →
    List.Chain (· < ·) e es →
    finderLoop st i ((e :: es).map some) =
      ⟨i + es.length, es.getLastD e, i + es.length, es.getLastD e, st.segs⟩ := by
  induction es with
  | nil =>
    intro st i e h1 _
    have hstep : finderStep st i (some e) =
        { st with peakEle := e, peakI := i, troughEle := e, troughI := i } := by
      simp only [finderStep]
      rw [if_pos h1]
    simp [finderLoop, hstep]
  | cons e' es' ih =>
    intro st i e h1 hc
    cases hc with
    | cons he' hc' =>
    have hstep : finderStep st i (some e) =
        { st with peakEle := e, peakI := i, troughEle := e, troughI := i } := by
      simp only [finderStep]
      rw [if_pos h1]
    rw [List.map_cons, finderLoop, hstep,
      ih { st with peakEle := e, peakI := i, troughEle := e, troughI := i }
        (i + 1) e' (by simpa using he') hc']
    simp only [FinderState.mk.injEq, List.length_cons, List.getLastD_cons,
      eq_self_iff_true, true_and, and_true]
    omega

/-- C5: on a strictly decreasing elevation sequence of length at least 2
whose total drop reaches `MIN_DROP_M`, the Segment Finder returns exactly
one segment from index 0 to the last index whose drop is the difference
of the first and last elevations; on a strictly increasing sequence it
returns no segments. -/
theorem C5_monotone_sequences :
    (∀ (e0 : ℚ) (es : List ℚ), es ≠ [] → List.Chain (· > ·) e0 es →
      MIN_DROP_M ≤ e0 - es.getLastD e0 →
      findDescentSegments ((e0 :: es).map some) =
        [⟨0, es.length, e0 - es.getLastD e0⟩]) ∧
    (∀ (e0 : ℚ) (es : List ℚ), List.Chain (· < ·) e0 es →
      findDescentSegments ((e0 :: es).map some) = []) := by
  constructor
  · intro e0 es hne hc hd
    obtain ⟨e1, es', rfl⟩ := List.exists_cons_of_ne_nil hne
    cases hc with
    | cons h01 hc1 =>
    show finderFinish (finderLoop ⟨0, e0, 0, e0, []⟩ 1 ((e1 :: es').map some)) = _
    rw [finderLoop_desc es' ⟨0, e0, 0, e0, []⟩ 1 e1 h01 le_rfl hc1]
    rw [List.getLastD_cons] at hd
    unfold finderFinish
    rw [if_pos (by simpa using hd)]
    simp only [List.nil_append, List.cons.injEq, Segment.mk.injEq, List.length_cons,
      List.getLastD_cons, eq_self_iff_true, true_and, and_true]
    omega
  · intro e0 es hc
    cases es with
    | nil =>
      show finderFinish (finderLoop ⟨0, e0, 0, e0, []⟩ 1 []) = _
      simp [finderLoop, finderFinish, MIN_DROP_M]
    | cons e1 es' =>
      cases hc with
      | cons h01 hc1 =>
      show finderFinish (finderLoop ⟨0, e0, 0, e0, []⟩ 1 ((e1 :: es').map some)) = _
      rw [finderLoop_asc es' ⟨0, e0, 0, e0, []⟩ 1 e1 h01 hc1]
      simp [finderFinish, MIN_DROP_M]

/-- C5 witness: the two-point drops `[500, 250]` and climb `[0, 300]`. -/
theorem C5_monotone_sequences_witness :
    findDescentSegments [some 500, some 250] = [⟨0, 1, 250⟩] ∧
    findDescentSegments [some 0, some 300] = [] := by
  constructor
  · have h := C5_monotone_sequences.1 500 [250] (by simp)
      (by norm_num [List.chain_cons]) (by norm_num [List.getLastD, MIN_DROP_M])
    norm_num at h
    exact h
  · exact C5_monotone_sequences.2 0 [300] (by norm_num [List.chain_cons])

/-- One finder step preserves the structural invariant. -/
theorem invA_step (i : ℕ) (st : FinderState) (e : Option ℚ) (h : InvA i st) :
    InvA (i + 1) (finderStep st i e) := by
  obtain ⟨h1, h2, h3, h4⟩ := h
  cases e with
  | none =>
    simp only [finderStep]
    exact ⟨h1, by omega, h3, h4⟩
  | some ele =>
    simp only [finderStep]
    split_ifs with hb1 hb2 hb3 hb4
    · refine ⟨le_rfl, by dsimp only; omega, ?_, h4⟩
      intro g hg
      have hgp := h3 g hg
      have h5 := hgp.2.2
      exact ⟨hgp.1, hgp.2.1, by dsimp only; omega⟩
    · refine ⟨by dsimp only; omega, by dsimp only; omega, ?_, h4⟩
      intro g hg
      exact h3 g hg
    · refine ⟨le_rfl, by dsimp only; omega, ?_, ?_⟩
      · intro g hg
        rcases List.mem_append.1 hg with hgl | hgr
        · have hgp := h3 g hgl
          have h5 := hgp.2.2
          exact ⟨hgp.1, hgp.2.1, by dsimp only; omega⟩
        · have hge : g = ⟨st.peakI, st.troughI, st.peakEle - st.troughEle⟩ := by
            simpa using hgr
          rw [hge]
          exact ⟨hb4, h1, by dsimp only; omega⟩
      · refine List.pairwise_append.2 ⟨h4, List.pairwise_singleton _ _, ?_⟩
        intro a ha b hb
        have hbe : b = ⟨st.peakI, st.troughI, st.peakEle - st.troughEle⟩ := by
          simpa using hb
        rw [hbe]
        exact (h3 a ha).2.2
    · refine ⟨le_rfl, by dsimp only; omega, ?_, h4⟩
      intro g hg
      have hgp := h3 g hg
      have h5 := hgp.2.2
      exact ⟨hgp.1, hgp.2.1, by dsimp only; omega⟩
    · exact ⟨h1, by omega, h3, h4⟩

/-- The whole finder scan preserves the structural invariant. -/
theorem invA_loop (rest : List (Option ℚ)) :
    ∀ (i : ℕ) (st : FinderState), InvA i st →
      InvA (i + rest.length) (finderLoop st i rest) := by
  induction rest with
  | nil => intro i st h; simpa using h
  | cons e rest' ih =>
    intro i st h
    rw [finderLoop]
    have h2 := ih (i + 1) (finderStep st i e) (invA_step i st e h)
    have heq : i + (e :: rest').length = i + 1 + rest'.length := by
      simp
      omega
    rw [heq]
    exact h2

/-- The post-loop emission keeps the minimum drop, span ordering and
pairwise disjointness. -/
theorem invA_finish (i : ℕ) (st : FinderState) (h : InvA i st) :
    (∀ g ∈ finderFinish st, MIN_DROP_M ≤ g.drop ∧ g.peakI ≤ g.troughI) ∧
    (finderFinish st).Pairwise (fun a b => a.troughI < b.peakI) := by
  obtain ⟨h1, h2, h3, h4⟩ := h
  unfold finderFinish
  split_ifs with hd
  · constructor
    · intro g hg
      rcases List.mem_append.1 hg with hgl | hgr
      · exact ⟨(h3 g hgl).1, (h3 g hgl).2.1⟩
      · have hge : g = ⟨st.peakI, st.troughI, st.peakEle - st.troughEle⟩ := by
          simpa using hgr
        rw [hge]
        exact ⟨hd, h1⟩
    · refine List.pairwise_append.2 ⟨h4, List.pairwise_singleton _ _, ?_⟩
      intro a ha b hb
      have hbe : b = ⟨st.peakI, st.troughI, st.peakEle - st.troughEle⟩ := by
        simpa using hb
      rw [hbe]
      exact (h3 a ha).2.2
  · exact ⟨fun g hg => ⟨(h3 g hg).1, (h3 g hg).2.1⟩, h4⟩

/-- One finder step, reading the series at its own position, preserves
the consistency invariant. -/
theorem invB_step (s : List (Option ℚ)) (i : ℕ) (st : FinderState)
    (h : InvB s st) : InvB s (finderStep st i (s.getD i none)) := by
  obtain ⟨hp, ht, hsegs⟩ := h
  cases he : s.getD i none with
  | none => exact ⟨hp, ht, hsegs⟩
  | some ele =>
    simp only [finderStep]
    split_ifs with hb1 hb2 hb3 hb4
    · exact ⟨he, he, hsegs⟩
    · exact ⟨hp, he, hsegs⟩
    · refine ⟨he, he, ?_⟩
      intro g hg
      rcases List.mem_append.1 hg with hgl | hgr
      · exact hsegs g hgl
      · have hge : g = ⟨st.peakI, st.troughI, st.peakEle - st.troughEle⟩ := by
          simpa using hgr
        rw [hge]
        exact ⟨st.peakEle, st.troughEle, hp, ht, rfl⟩
    · exact ⟨he, he, hsegs⟩
    · exact ⟨hp, ht, hsegs⟩

/-- The whole finder scan preserves the consistency invariant, when run
over the suffix of the series starting at its position. -/
theorem invB_loop (s : List (Option ℚ)) (rest : List (Option ℚ)) :
    ∀ (i : ℕ) (st : FinderState), s.drop i = rest → InvB s st →
      InvB s (finderLoop st i rest) := by
  induction rest with
  | nil => intro i st _ h; exact h
  | cons e rest' ih =>
    intro i st hdrop h
    have he : s.getD i none = e := by
      have h0 : (s.drop i)[0]? = s[i + 0]? := List.getElem?_drop s i 0
      rw [hdrop] at h0
      simp only [List.getElem?_cons_zero, Nat.add_zero] at h0
      rw [List.getD_eq_getElem?_getD, ← h0]
      rfl
    have hdrop' : s.drop (i + 1) = rest' := by
      have h1 : (s.drop i).drop 1 = s.drop (i + 1) := List.drop_drop 1 i s
      rw [hdrop] at h1
      simp only [List.drop_one, List.tail_cons] at h1
      exact h1.symm
    rw [finderLoop]
    exact ih (i + 1) _ hdrop' (he ▸ invB_step s i st h)

/-- The post-loop emission keeps the consistency of every emitted
segment with the series. -/
theorem invB_finish (s : List (Option ℚ)) (st : FinderState) (h : InvB s st) :
    ∀ g ∈ finderFinish st, ∃ ep et, s.getD g.peakI none = some ep ∧
      s.getD g.troughI none = some et ∧ g.drop = ep - et := by
  obtain ⟨hp, ht, hsegs⟩ := h
  intro g hg
  unfold finderFinish at hg
  split_ifs at hg with hd
  · rcases List.mem_append.1 hg with hgl | hgr
    · exact hsegs g hgl
    · have hge : g = ⟨st.peakI, st.troughI, st.peakEle - st.troughEle⟩ := by
        simpa using hgr
      rw [hge]
      exact ⟨st.peakEle, st.troughEle, hp, ht, rfl⟩
  · exact hsegs g hg

/-- C4 counterexample: on the series `[null, -500]` the source emits the
segment `{0, 1, 500}` whose peak index points at a null smoothed
elevation, so its drop cannot equal the difference of the smoothed
elevations at its peak and trough indices. -/
theorem C4_counterexample :
    ¬ ∀ g ∈ findDescentSegments [none, some (-500)], ∃ ep et,
        ([none, some (-500)] : List (Option ℚ)).getD g.peakI none = some ep ∧
        ([none, some (-500)] : List (Option ℚ)).getD g.troughI none = some et ∧
        g.drop = ep - et := by
  intro hall
  have hlist : findDescentSegments [none, some (-500)] = [⟨0, 1, 500⟩] := by
    norm_num [findDescentSegments, finderInit, finderLoop, finderStep,
      finderFinish, MIN_DROP_M, MIN_CLIMB_TO_RESET]
  obtain ⟨ep, et, h1, h2, h3⟩ :=
    hall ⟨0, 1, 500⟩ (by rw [hlist]; exact List.mem_singleton.2 rfl)
  simp at h1

/-- C4 amended: every emitted segment has `drop ≥ MIN_DROP` (hence ≥ 0)
and `peakIndex ≤ troughIndex`, and the segments are pairwise
non-overlapping in index range and ordered by increasing index; when the
first entry of the smoothed series is non-null, each segment's drop also
equals the smoothed elevation at its peak index minus the smoothed
elevation at its trough index. -/
theorem C4_segment_invariants (s : List (Option ℚ)) :
    ((∀ g ∈ findDescentSegments s, MIN_DROP_M ≤ g.drop ∧ g.peakI ≤ g.troughI) ∧
      (findDescentSegments s).Pairwise (fun a b => a.troughI < b.peakI)) ∧
    (∀ e0, s.head? = some (some e0) →
      ∀ g ∈ findDescentSegments s, ∃ ep et,
        s.getD g.peakI none = some ep ∧ s.getD g.troughI none = some et ∧
        g.drop = ep - et) := by
  constructor
  · have h0 : InvA 1 ⟨0, finderInit s, 0, finderInit s, []⟩ :=
      ⟨le_rfl, one_pos, by simp, List.Pairwise.nil⟩
    have hF := invA_loop s.tail 1 _ h0
    exact invA_finish _ _ hF
  · intro e0 h0
    cases s with
    | nil => exact absurd h0 (by simp)
    | cons x rest =>
      have hx : x = some e0 := by simpa using h0
      subst hx
      have hB0 : InvB (some e0 :: rest)
          ⟨0, finderInit (some e0 :: rest), 0, finderInit (some e0 :: rest), []⟩ := by
        refine ⟨?_, ?_, by simp⟩ <;> simp [finderInit]
      have hBF := invB_loop (some e0 :: rest) rest 1 _ rfl hB0
      exact invB_finish _ _ hBF

/-- C4 witness: on `[500, 250]` the single emitted segment meets the
drop bound, span ordering, and reads its drop off the series. -/
theorem C4_segment_invariants_witness :
    (MIN_DROP_M ≤ (Segment.mk 0 1 250).drop ∧
      (Segment.mk 0 1 250).peakI ≤ (Segment.mk 0 1 250).troughI) ∧
    ∃ ep et,
      ([some 500, some 250] : List (Option ℚ)).getD (Segment.mk 0 1 250).peakI none = some ep ∧
      ([some 500, some 250] : List (Option ℚ)).getD (Segment.mk 0 1 250).troughI none = some et ∧
      (Segment.mk 0 1 250).drop = ep - et := by
  have hlist : findDescentSegments [some 500, some 250] = [⟨0, 1, 250⟩] := by
    norm_num [findDescentSegments, finderInit, finderLoop, finderStep,
      finderFinish, MIN_DROP_M, MIN_CLIMB_TO_RESET]
  have hmem : (⟨0, 1, 250⟩ : Segment) ∈ findDescentSegments [some 500, some 250] := by
    rw [hlist]
    exact List.mem_singleton.2 rfl
  exact ⟨(C4_segment_invariants [some 500, some 250]).1.1 ⟨0, 1, 250⟩ hmem,
    (C4_segment_invariants [some 500, some 250]).2 500 rfl ⟨0, 1, 250⟩ hmem⟩

/-- The empty interval is an in-band run. -/
theorem goodRun_zero (grads : List ℚ) (s : ℕ) : goodRun grads s 0 :=
  fun k hk => absurd hk (Nat.not_lt_zero k)

/-- A prefix of an in-band run is an in-band run. -/
theorem goodRun_prefix {grads : List ℚ} {s L L' : ℕ}
    (h : goodRun grads s L) (hL : L' ≤ L) : goodRun grads s L' :=
  fun k hk => h k (lt_of_lt_of_le hk hL)

/-- One step of the longest-run scan preserves the scan invariant. -/
theorem runInv_step (grads : List ℚ) (m : ℕ) (st : RunState)
    (hm : m < grads.length) (h : RunInv grads m st) :
    RunInv grads (m + 1) (runStep st m (grads.getD m 0)) := by
  obtain ⟨h1, h2, h3, h4, h5, h6, h7, h8, h9⟩ := h
  by_cases hb : STEEP_MIN_DEG ≤ grads.getD m 0 ∧ grads.getD m 0 ≤ STEEP_MAX_DEG
  · have hcs : (if st.curLen = 0 then m else st.curStart) = m - st.curLen := by
      by_cases h0 : st.curLen = 0
      · simp [h0]
      · rw [if_neg h0]
        exact h2 (Nat.pos_of_ne_zero h0)
    have hgood : goodRun grads (m - st.curLen) (st.curLen + 1) := by
      intro k hk
      by_cases hkc : k < st.curLen
      · exact h3 k hkc
      · have hk' : k = st.curLen := by omega
        subst hk'
        have heqm : m - st.curLen + st.curLen = m := by omega
        rw [heqm]
        exact ⟨hm, hb.1, hb.2⟩
    have hmax : ∀ L ≤ m + 1, goodRun grads (m + 1 - L) L → L ≤ st.curLen + 1 := by
      intro L hL hgoodL
      cases L with
      | zero => omega
      | succ L' =>
        have hpre : goodRun grads (m + 1 - (L' + 1)) L' :=
          goodRun_prefix hgoodL (Nat.le_succ L')
        have heq : m + 1 - (L' + 1) = m - L' := by omega
        rw [heq] at hpre
        have := h4 L' (by omega) hpre
        omega
    by_cases hlen : st.curLen + 1 > st.bestLen
    · simp only [runStep, if_pos hb, hcs, if_pos hlen]
      refine ⟨?_, ?_, ?_, ?_, ?_, ?_, ?_, ?_, ?_⟩
      · dsimp only; omega
      · intro _
        dsimp only
        omega
      · dsimp only
        rw [show m + 1 - (st.curLen + 1) = m - st.curLen by omega]
        exact hgood
      · dsimp only
        exact hmax
      · dsimp only
        exact le_rfl
      · exact hgood
      · dsimp only
        omega
      · dsimp only
        intro u L husl hgu
        by_cases hc : u + L ≤ m
        · have := h8 u L hc hgu
          omega
        · cases L with
          | zero => omega
          | succ L'' =>
            have hu' : u = m + 1 - (L'' + 1) := by omega
            rw [hu'] at hgu
            exact hmax (L'' + 1) (by omega) hgu
      · dsimp only
        intro u hu hgu
        have := h8 u (st.curLen + 1) (by omega) hgu
        omega
    · simp only [runStep, if_pos hb, hcs, if_neg hlen]
      refine ⟨?_, ?_, ?_, ?_, ?_, ?_, ?_, ?_, ?_⟩
      · dsimp only; omega
      · intro _
        dsimp only
        omega
      · dsimp only
        rw [show m + 1 - (st.curLen + 1) = m - st.curLen by omega]
        exact hgood
      · dsimp only
        exact hmax
      · dsimp only
        omega
      · exact h6
      · dsimp only
        omega
      · dsimp only
        intro u L husl hgu
        by_cases hc : u + L ≤ m
        · exact h8 u L hc hgu
        · cases L with
          | zero => omega
          | succ L'' =>
            have hu' : u = m + 1 - (L'' + 1) := by omega
            rw [hu'] at hgu
            have := hmax (L'' + 1) (by omega) hgu
            omega
      · exact h9
  · simp only [runStep, if_neg hb]
    refine ⟨?_, ?_, ?_, ?_, ?_, ?_, ?_, ?_, ?_⟩
    · dsimp only; omega
    · intro hpos
      dsimp only at hpos
      omega
    · dsimp only
      exact goodRun_zero grads (m + 1)
    · dsimp only
      intro L hL hgl
      cases L with
      | zero => exact le_rfl
      | succ L'' =>
        have hlast := hgl L'' (Nat.lt_succ_self L'')
        have heqm : m + 1 - (L'' + 1) + L'' = m := by omega
        rw [heqm] at hlast
        exact absurd ⟨hlast.2.1, hlast.2.2⟩ hb
    · dsimp only
      exact Nat.zero_le _
    · exact h6
    · dsimp only
      omega
    · dsimp only
      intro u L husl hgu
      by_cases hc : u + L ≤ m
      · exact h8 u L hc hgu
      · cases L with
        | zero => exact Nat.zero_le _
        | succ L'' =>
          have hlast := hgu L'' (Nat.lt_succ_self L'')
          have heqm : u + L'' = m := by omega
          rw [heqm] at hlast
          exact absurd ⟨hlast.2.1, hlast.2.2⟩ hb
    · exact h9

/-- The whole longest-run scan preserves the scan invariant, when run
over the suffix of the gradient list starting at its position. -/
theorem runInv_loop (grads : List ℚ) (rest : List ℚ) :
    ∀ (m : ℕ) (st : RunState), grads.drop m = rest → RunInv grads m st →
      RunInv grads (m + rest.length) (runLoop st m rest) := by
  induction rest with
  | nil => intro m st _ h; simpa using h
  | cons g rest' ih =>
    intro m st hdrop h
    have hm : m < grads.length := by
      have hlen : (grads.drop m).length = rest'.length + 1 := by rw [hdrop]; simp
      have hld := List.length_drop m grads
      omega
    have he : grads.getD m 0 = g := by
      have h0 : (grads.drop m)[0]? = grads[m + 0]? := List.getElem?_drop grads m 0
      rw [hdrop] at h0
      simp only [List.getElem?_cons_zero, Nat.add_zero] at h0
      rw [List.getD_eq_getElem?_getD, ← h0]
      rfl
    have hdrop' : grads.drop (m + 1) = rest' := by
      have h1 : (grads.drop m).drop 1 = grads.drop (m + 1) := List.drop_drop 1 m grads
      rw [hdrop] at h1
      simp only [List.drop_one, List.tail_cons] at h1
      exact h1.symm
    rw [runLoop]
    have hstep := runInv_step grads m st hm h
    rw [he] at hstep
    have h2 := ih (m + 1) _ hdrop' hstep
    rw [List.length_cons, show m + (rest'.length + 1) = m + 1 + rest'.length by omega]
    exact h2

/-- The scan invariant holds before the first chunk. -/
theorem runInv_init (grads : List ℚ) : RunInv grads 0 ⟨0, 0, 0, 0⟩ :=
  ⟨le_rfl, fun hpos => absurd hpos (lt_irrefl 0), goodRun_zero grads 0,
   fun L hL _ => hL, le_rfl, goodRun_zero grads 0, le_rfl,
   fun s L hsl _ => by omega, fun u hu => absurd hu (Nat.not_lt_zero u)⟩

/-- The Analyzer returns null exactly when the best run is empty. -/
theorem selectSteep_none_iff (atanDeg : ℚ → ℚ) (smoothEle : List (Option ℚ))
    (chunks : List Chunk) :
    selectSteep atanDeg smoothEle chunks = none ↔
      (longestRun (chunks.map Chunk.grad)).2 = 0 := by
  by_cases h0 : (longestRun (chunks.map Chunk.grad)).2 = 0 <;>
    simp [selectSteep, h0]

/-- C6: the run selected by the Steep Segment Analyzer is in-band
throughout, no in-band run of consecutive chunks is longer (runs are
compared strictly by count of in-band chunks, never by drop), no
equally long in-band run starts earlier, and the Analyzer returns null
exactly when no chunk gradient lies in `[STEEP_MIN_DEG, STEEP_MAX_DEG]`. -/
theorem C6_longest_steep_run (atanDeg : ℚ → ℚ) (smoothEle : List (Option ℚ))
    (chunks : List Chunk) :
    (selectSteep atanDeg smoothEle chunks = none ↔
      ∀ i < chunks.length,
        ¬ (STEEP_MIN_DEG ≤ (chunks.map Chunk.grad).getD i 0 ∧
           (chunks.map Chunk.grad).getD i 0 ≤ STEEP_MAX_DEG)) ∧
    goodRun (chunks.map Chunk.grad) (longestRun (chunks.map Chunk.grad)).1
      (longestRun (chunks.map Chunk.grad)).2 ∧
    (∀ s L, goodRun (chunks.map Chunk.grad) s L →
      L ≤ (longestRun (chunks.map Chunk.grad)).2) ∧
    (∀ u, u < (longestRun (chunks.map Chunk.grad)).1 →
      ¬ goodRun (chunks.map Chunk.grad) u (longestRun (chunks.map Chunk.grad)).2) ∧
    (0 < (longestRun (chunks.map Chunk.grad)).2 →
      selectSteep atanDeg smoothEle chunks ≠ none) := by
  have hInv := runInv_loop (chunks.map Chunk.grad) (chunks.map Chunk.grad) 0
    ⟨0, 0, 0, 0⟩ rfl (runInv_init (chunks.map Chunk.grad))
  rw [Nat.zero_add] at hInv
  obtain ⟨k1, k2, k3, k4, k5, k6, k7, k8, k9⟩ := hInv
  have hbound : ∀ s L, goodRun (chunks.map Chunk.grad) s L →
      L ≤ (longestRun (chunks.map Chunk.grad)).2 := by
    intro s L hgl
    cases L with
    | zero => exact Nat.zero_le _
    | succ L' =>
      have hlast := hgl L' (Nat.lt_succ_self L')
      exact k8 s (L' + 1) (by omega) hgl
  refine ⟨?_, k6, hbound, k9, ?_⟩
  · rw [selectSteep_none_iff]
    constructor
    · intro h0 i hi hband
      have hgood : goodRun (chunks.map Chunk.grad) i 1 := by
        intro k hk
        have hk0 : k = 0 := by omega
        subst hk0
        rw [Nat.add_zero]
        exact ⟨by simpa using hi, hband.1, hband.2⟩
      have := hbound i 1 hgood
      omega
    · intro hnone
      by_contra hne
      have hpos : 0 < (longestRun (chunks.map Chunk.grad)).2 :=
        Nat.pos_of_ne_zero hne
      have hfirst := k6 0 hpos
      rw [Nat.add_zero] at hfirst
      exact hnone (longestRun (chunks.map Chunk.grad)).1
        (by simpa using hfirst.1) ⟨hfirst.2.1, hfirst.2.2⟩
  · intro hpos
    rw [Ne, selectSteep_none_iff]
    omega

/-- C6 witness: on four chunks with gradients `[30, 40, 30, 30]`, where
the out-of-band chunk carries the largest drop, the selected run is the
two trailing in-band chunks and the Analyzer does not return null. -/
theorem C6_longest_steep_run_witness :
    goodRun (c6Chunks.map Chunk.grad) 2 2 ∧
    selectSteep (fun x => x) [] c6Chunks ≠ none := by
  have h := C6_longest_steep_run (fun x => x) [] c6Chunks
  have hlr : longestRun (c6Chunks.map Chunk.grad) = (2, 2) := by decide
  constructor
  · have h2 := h.2.1
    rw [hlr] at h2
    exact h2
  · exact h.2.2.2.2 (by rw [hlr]; exact Nat.zero_lt_two)
